import Mathlib

/-!
Verification of the IELTS real-time interview application
(retrieval subsystem and realtime turn handling) against its
natural-language specification.

The development shallowly embeds the JavaScript sources:

* `server/utils/pdfProcessor.js` — text chunking (`chunkText`) and batched
  embedding (`generateEmbeddings`);
* `server/utils/retriever.js` — query embedding and best-effort context
  retrieval (`retrieveContext`);
* `server/utils/vectorStore.js` — vector-index operations
  (`addDocuments`, `deleteDocument`, `listDocuments`, `getStats`)
  over a model of the ChromaDB collection collaborator;
* `server/server.js` and the alternate server variant — the
  `/api/search` and `/api/realtime/call` HTTP handlers, modelled as
  functions from collaborator outcomes to (log lines, response);
* the WebRTC client — push-to-talk state transitions
  (`startTalking`, `stopTalking`) and transcript event handlers,
  modelled as functions on the client `state` object that also return
  the list of events sent over the data channel.

Strings are modelled as `List Char` where character-level slicing
matters (the chunker), and as `String` elsewhere.  Numeric vector
entries are modelled as rationals; none of the verified properties
depends on floating-point rounding.  Asynchronous calls to external
collaborators (OpenAI, ChromaDB) are modelled as explicit
`Except`-valued oracle inputs.
-/

namespace IeltsRag

/-! ## Chunker (`server/utils/pdfProcessor.js`, `chunkText`) -/

/-- JavaScript `\s` whitespace class restricted to the ASCII characters
that can occur in extracted PDF text: space, tab, newline, carriage
return, vertical tab, form feed. -/
def isWs (c : Char) : Bool :=
  c = ' ' || c = '\t' || c = '\n' || c = '\r' || c = '\x0b' || c = '\x0c'

/-- `str.replace(/X+/g, r)` for a character class `p`: every maximal run
of characters satisfying `p` is replaced by the single character `r`
(emitted at the end of the run, which yields the same list). -/
def collapseRuns (p : Char → Bool) (r : Char) : List Char → List Char
  | [] => []
  | [c] => if p c then [r] else [c]
  | c :: c2 :: cs =>
    if p c then
      if p c2 then collapseRuns p r (c2 :: cs)
      else r :: collapseRuns p r (c2 :: cs)
    else c :: collapseRuns p r (c2 :: cs)

/-- `str.trim()`: drop whitespace from both ends. -/
def trimC (l : List Char) : List Char :=
  (((l.dropWhile isWs).reverse).dropWhile isWs).reverse

/-- `text.replace(/\s+/g, ' ').replace(/\n+/g, '\n').trim()` from
`chunkText`. -/
def normalizeText (text : List Char) : List Char :=
  trimC (collapseRuns (fun c => c = '\n') '\n' (collapseRuns isWs ' ' text))

/-- `str.lastIndexOf(c)` on a character list: index of the last
occurrence, or `none`. -/
def lastIdx (c : Char) : List Char → Option Nat
  | [] => none
  | x :: xs =>
    match lastIdx c xs with
    | some j => some (j + 1)
    | none => if x = c then some 0 else none

/-- `str.lastIndexOf(c)` with the JavaScript `-1` convention. -/
def lastIndexOfC (l : List Char) (c : Char) : Int :=
  match lastIdx c l with
  | some j => (j : Int)
  | none => -1

/-- `endIndex = Math.min(startIndex + chunkSize, cleanText.length)`
inside the `chunkText` loop. -/
def windowEnd (t : List Char) (chunkSize startIndex : Nat) : Nat :=
  min (startIndex + chunkSize) t.length

/-- `chunk = cleanText.slice(startIndex, endIndex)` inside the
`chunkText` loop. -/
def window (t : List Char) (chunkSize startIndex : Nat) : List Char :=
  (t.drop startIndex).take (windowEnd t chunkSize startIndex - startIndex)

/-- `breakPoint = Math.max(chunk.lastIndexOf('.'), chunk.lastIndexOf('\n'))`
inside the `chunkText` loop. -/
def breakPointOf (chunk : List Char) : Int :=
  max (lastIndexOfC chunk '.') (lastIndexOfC chunk '\n')

/-- The body of one iteration of the `while (startIndex <
cleanText.length)` loop of `chunkText`: the updated `startIndex`
together with the (pre-trim) chunk pushed by the iteration.  The
comparison `breakPoint > chunkSize * 0.5` is exact on integers, since
`breakPoint` is an integer and `chunkSize * 0.5` is represented
exactly; `2 * breakPoint > chunkSize` restates it without the halving. -/
def chunkStep (t : List Char) (chunkSize overlap startIndex : Nat) : Nat × List Char :=
  if windowEnd t chunkSize startIndex < t.length then
    if 2 * breakPointOf (window t chunkSize startIndex) > (chunkSize : Int) then
      (startIndex + ((breakPointOf (window t chunkSize startIndex)).toNat + 1),
        (window t chunkSize startIndex).take
          ((breakPointOf (window t chunkSize startIndex)).toNat + 1))
    else
      (startIndex + (chunkSize - overlap), window t chunkSize startIndex)
  else
    (t.length, window t chunkSize startIndex)

/-- The `while` loop of `chunkText`, with explicit fuel (the JS loop
does not terminate when `chunkSize ≤ overlap`, which the fuel makes
representable; `none` models that divergence).  Returns the produced
chunks together with the number of loop iterations. -/
def chunkLoop (t : List Char) (chunkSize overlap : Nat) :
    Nat → Nat → Option (List (List Char) × Nat)
  | 0, _ => none
  | fuel + 1, startIndex =>
    if startIndex < t.length then
      match chunkLoop t chunkSize overlap fuel (chunkStep t chunkSize overlap startIndex).1 with
      | none => none
      | some (rest, iters) =>
        some
          (if (trimC (chunkStep t chunkSize overlap startIndex).2).length > 0 then
            trimC (chunkStep t chunkSize overlap startIndex).2 :: rest
          else rest, iters + 1)
    else
      some ([], 0)

/-- `chunkText(text, chunkSize, overlap)` together with the loop
iteration count; `none` models non-termination of the JS loop (it is
ruled out below whenever `chunkSize > overlap`). -/
def chunkRun (text : List Char) (chunkSize overlap : Nat) :
    Option (List (List Char) × Nat) :=
  let cleanText := normalizeText text
  chunkLoop cleanText chunkSize overlap (cleanText.length + 1) 0

/-- The chunk list produced by `chunkText`. -/
def chunkText (text : List Char) (chunkSize overlap : Nat) :
    Option (List (List Char)) :=
  (chunkRun text chunkSize overlap).map Prod.fst

/-- The number of iterations of the `chunkText` loop. -/
def chunkIters (text : List Char) (chunkSize overlap : Nat) : Option Nat :=
  (chunkRun text chunkSize overlap).map Prod.snd

/-- `Math.ceil(n / d)` on naturals. -/
def ceilDiv (n d : Nat) : Nat := (n + d - 1) / d

/-- The minimum amount by which a non-final iteration of the
`chunkText` loop advances the start pointer: the plain-advance branch
moves by `chunkSize - overlap`, the sentence-boundary branch by
`breakPoint + 1 ≥ ⌊chunkSize/2⌋ + 2`. -/
def minAdvance (chunkSize overlap : Nat) : Nat :=
  min (chunkSize - overlap) (chunkSize / 2 + 2)

/-! ## Embedder (`server/utils/pdfProcessor.js`, `generateEmbeddings`)

The external embedding collaborator (`openai.embeddings.create`) is
modelled as an oracle `f` mapping a batch of input texts to either an
error or the list of returned vectors for that batch. -/

/-- The batching loop of `generateEmbeddings`: `for (let i = 0; i <
chunks.length; i += batchSize)` with the fixed `batchSize = 20`,
issuing one collaborator call per batch and concatenating the returned
vectors in order.  A collaborator failure aborts the loop (the `await`
throws). -/
def embedBatchesE (f : List String → Except String (List (List ℚ))) :
    List String → Except String (List (List ℚ))
  | [] => Except.ok []
  | c :: cs =>
    match f ((c :: cs).take 20) with
    | Except.error e => Except.error e
    | Except.ok batchEmbeddings =>
      match embedBatchesE f ((c :: cs).drop 20) with
      | Except.error e => Except.error e
      | Except.ok rest => Except.ok (batchEmbeddings ++ rest)
termination_by l => l.length
decreasing_by
  simp only [List.length_drop, List.length_cons]
  omega

/-- `generateEmbeddings(chunks, apiKey)`: throws when the API key is
absent; otherwise runs the batching loop inside `try`/`catch`, mapping
any collaborator failure to the single message
`'Failed to generate embeddings'`. -/
def generateEmbeddings (apiKey : Option String)
    (f : List String → Except String (List (List ℚ)))
    (chunks : List String) : Except String (List (List ℚ)) :=
  match apiKey with
  | none => Except.error "API Key required for generating embeddings"
  | some _ =>
    match embedBatchesE f chunks with
    | Except.ok embeddings => Except.ok embeddings
    | Except.error _ => Except.error "Failed to generate embeddings"

/-! ## Retriever (`server/utils/retriever.js`) -/

/-- Per-chunk metadata as written by `addDocuments` in
`server/utils/vectorStore.js` and read back by the retriever. -/
structure ChunkMeta where
  documentId : String
  chunkIndex : Nat
  totalChunks : Nat
  fileName : String
  uploadedAt : String
  text : String
deriving DecidableEq, Repr

/-- One formatted result of `searchSimilar` in
`server/utils/vectorStore.js`: `{id, text, metadata, distance}`. -/
structure SearchHit where
  id : String
  text : String
  metadata : ChunkMeta
  distance : ℚ
deriving DecidableEq, Repr

/-- One entry of the `results` array built by `retrieveContext`. -/
structure RetrievalResult where
  text : String
  fileName : String
  chunkIndex : Nat
  relevanceScore : ℚ
deriving DecidableEq, Repr

/-- The object returned by `retrieveContext`.  `results` and `error`
are `Option`s because the JS object carries those keys only on some
paths (`none` models the absent key, which `res.json` then omits from
the serialized response). -/
structure RetrievedContext where
  hasContext : Bool
  context : String
  sources : List String
  results : Option (List RetrievalResult)
  error : Option String
deriving DecidableEq, Repr

/-- `generateQueryEmbedding(query, apiKey)`: throws when the API key is
absent; otherwise performs the collaborator call, and its `catch`
logs and rethrows the same error.  `embedOutcome` is the collaborator
oracle for this query. -/
def generateQueryEmbedding (apiKey : Option String)
    (embedOutcome : Except String (List ℚ)) : Except String (List ℚ) :=
  match apiKey with
  | none => Except.error "API Key required for generating embeddings"
  | some _ => embedOutcome

/-- `[...new Set(xs)]`: de-duplication preserving first-seen order. -/
def dedupKeepFirst (l : List String) : List String :=
  l.foldl (fun acc x => if x ∈ acc then acc else acc ++ [x]) []

/-- The `contextParts` array of `retrieveContext`:
`"[Source N: fileName]\n" + text` per result, `N` starting at 1. -/
def contextParts (results : List SearchHit) : List String :=
  results.enum.map (fun p =>
    "[Source " ++ toString (p.1 + 1) ++ ": " ++ p.2.metadata.fileName ++ "]\n" ++ p.2.text)

/-- `retrieveContext(query, topK, apiKey)`.  The embedding collaborator
and the index query (`searchSimilar`, which rethrows its own failures)
are oracle inputs; the surrounding `try`/`catch` turns any failure into
the degraded `{hasContext:false, context:'', sources:[], error}` value. -/
def retrieveContext (apiKey : Option String)
    (embedOutcome : Except String (List ℚ))
    (search : List ℚ → Nat → Except String (List SearchHit))
    (topK : Nat) : RetrievedContext :=
  match generateQueryEmbedding apiKey embedOutcome with
  | Except.error e =>
    { hasContext := false, context := "", sources := [], results := none, error := some e }
  | Except.ok queryEmbedding =>
    match search queryEmbedding topK with
    | Except.error e =>
      { hasContext := false, context := "", sources := [], results := none, error := some e }
    | Except.ok results =>
      if results.length = 0 then
        { hasContext := false, context := "", sources := [], results := none, error := none }
      else
        { hasContext := true,
          context := String.intercalate "\n\n---\n\n" (contextParts results),
          sources := dedupKeepFirst (results.map (fun r => r.metadata.fileName)),
          results := some (results.map (fun r =>
            { text := r.text, fileName := r.metadata.fileName,
              chunkIndex := r.metadata.chunkIndex,
              relevanceScore := 1 - r.distance })),
          error := none }

/-- The JSON body sent by the `/api/search` handler in
`server/server.js`; `results` mirrors `context.results`, and a `none`
value models the `undefined` key that `res.json` drops. -/
structure SearchResponse where
  success : Bool
  query : String
  hasContext : Bool
  sources : List String
  results : Option (List RetrievalResult)
deriving DecidableEq, Repr

/-- The `/api/search` handler of `server/server.js`: validates the
query (`400` when falsy), calls `retrieveContext`, and forwards
`hasContext`, `sources` and `results` to the HTTP caller. -/
def searchHandler (query : String) (topK : Nat) (apiKey : Option String)
    (embedOutcome : Except String (List ℚ))
    (search : List ℚ → Nat → Except String (List SearchHit)) :
    Except (Nat × String) SearchResponse :=
  if query = "" then Except.error (400, "Query is required")
  else
    Except.ok
      { success := true, query := query,
        hasContext := (retrieveContext apiKey embedOutcome search topK).hasContext,
        sources := (retrieveContext apiKey embedOutcome search topK).sources,
        results := (retrieveContext apiKey embedOutcome search topK).results }

/-! ## Vector index (`server/utils/vectorStore.js`)

The ChromaDB collection is the spec's §6 vector-storage collaborator:
collection-scoped add / get-by-metadata-filter / delete-by-ids / count.
It is modelled as the list of stored records; per Chroma's contract,
ids in a collection are unique (theorems assume this as `Nodup`). -/

/-- One stored record: chunk id, embedding and metadata (the chunk text
is also kept inside the metadata, as `addDocuments` writes it). -/
structure ChunkRecord where
  id : String
  embedding : List ℚ
  metadata : ChunkMeta
deriving DecidableEq, Repr

/-- Collaborator `collection.get({where: {documentId}})`: every record
whose metadata `documentId` matches. -/
def collGetByDocumentId (coll : List ChunkRecord) (documentId : String) :
    List ChunkRecord :=
  coll.filter (fun r => r.metadata.documentId = documentId)

/-- Collaborator `collection.delete({ids})`: removes every record whose
id is listed. -/
def collDeleteByIds (coll : List ChunkRecord) (ids : List String) :
    List ChunkRecord :=
  coll.filter (fun r => decide (r.id ∉ ids))

/-- Collaborator `collection.count()`. -/
def collCount (coll : List ChunkRecord) : Nat := coll.length

/-- `addDocuments(chunks, embeddings, documentId, metadata)`: chunk ids
`documentId + '_chunk_' + index`, per-chunk metadata with `documentId`,
`chunkIndex`, `totalChunks`, `fileName` (defaulting to `'unknown'`),
`uploadedAt` (defaulting to the current time `now`) and the chunk text;
all appended to the collection. -/
def addDocuments (coll : List ChunkRecord) (chunks : List String)
    (embeddings : List (List ℚ)) (documentId : String)
    (fileName uploadedAt : Option String) (now : String) : List ChunkRecord :=
  coll ++ (chunks.zip embeddings).enum.map (fun p =>
    { id := documentId ++ "_chunk_" ++ toString p.1,
      embedding := p.2.2,
      metadata :=
        { documentId := documentId, chunkIndex := p.1,
          totalChunks := chunks.length,
          fileName := fileName.getD "unknown",
          uploadedAt := uploadedAt.getD now,
          text := p.2.1 } })

/-- `deleteDocument(documentId)`: fetch the ids of all chunks of the
document, then delete them; if there are none, do nothing (no error). -/
def deleteDocument (coll : List ChunkRecord) (documentId : String) :
    List ChunkRecord :=
  if (collGetByDocumentId coll documentId).length > 0 then
    collDeleteByIds coll ((collGetByDocumentId coll documentId).map (fun r => r.id))
  else coll

/-- One row of `listDocuments()`. -/
structure DocSummary where
  documentId : String
  fileName : String
  uploadedAt : String
  totalChunks : Nat
deriving DecidableEq, Repr

/-- `listDocuments()`: group chunk metadata by `documentId` in a `Map`
(insertion-ordered, first-seen wins) and return the rows. -/
def listDocuments (coll : List ChunkRecord) : List DocSummary :=
  coll.foldl (fun acc r =>
    if acc.any (fun d => d.documentId = r.metadata.documentId) then acc
    else acc ++ [{ documentId := r.metadata.documentId,
                   fileName := r.metadata.fileName,
                   uploadedAt := r.metadata.uploadedAt,
                   totalChunks := r.metadata.totalChunks }]) []

/-- The object returned by `getStats()`. -/
structure StoreStats where
  totalChunks : Nat
  totalDocuments : Nat
  documents : List DocSummary
deriving DecidableEq, Repr

/-- `getStats()`: collection count plus the grouped document rows. -/
def getStats (coll : List ChunkRecord) : StoreStats :=
  { totalChunks := collCount coll,
    totalDocuments := (listDocuments coll).length,
    documents := listDocuments coll }

/-! ## `/api/realtime/call` session-creation handlers

Two variants of the handler exist in the repository: the one in
`server/server.js` (with retrieval enrichment and `requireApiKey`
middleware) and the one in the alternate stand-alone server file.
Each is modelled as a function from the collaborator outcome of
`POST https://api.openai.com/v1/realtime/sessions` to the list of
console log lines it produces and the HTTP response it returns.  The
request body (instructions, audio and turn-detection parameters) is
sent to the external collaborator and does not influence logs or
response shape, so it is not tracked. -/

/-- The session data returned by the conversational collaborator:
`{id, client_secret, expires_at}` (the ephemeral credential value is
`clientSecret`). -/
structure RealtimeSessionData where
  id : String
  clientSecret : String
  expiresAt : Nat
deriving DecidableEq, Repr

/-- The JSON body returned to the HTTP caller on success:
`{sessionId, clientSecret, expiresAt}`. -/
structure CallResponse where
  sessionId : String
  clientSecret : String
  expiresAt : Nat
deriving DecidableEq, Repr

/-- The `/api/realtime/call` handler of the alternate stand-alone
server file: checks `process.env.OPENAI_API_KEY`, logs the session
configuration, calls the collaborator, and on success logs
`'Session created successfully'`, `'Session ID: ...'` and
`'Client Secret: ...'` before returning the session data. -/
def realtimeCallV0 (apiKeyConfigured : Bool) (cfgModel cfgVoice : Option String)
    (collab : Except (Nat × String) RealtimeSessionData) :
    List String × Except (Nat × String) CallResponse :=
  if apiKeyConfigured = false then
    ([], Except.error (500, "OpenAI API key not configured"))
  else
    match collab with
    | Except.error (status, errorText) =>
      (["Creating Realtime session with OpenAI...",
        "Model: " ++ cfgModel.getD "gpt-4o-realtime-preview-2024-12-17",
        "Voice: " ++ cfgVoice.getD "alloy",
        "OpenAI API Error: " ++ toString status ++ " " ++ errorText],
        Except.error (status, "Failed to create Realtime session"))
    | Except.ok data =>
      (["Creating Realtime session with OpenAI...",
        "Model: " ++ cfgModel.getD "gpt-4o-realtime-preview-2024-12-17",
        "Voice: " ++ cfgVoice.getD "alloy",
        "Session created successfully",
        "Session ID: " ++ data.id,
        "Client Secret: " ++ data.clientSecret],
        Except.ok { sessionId := data.id, clientSecret := data.clientSecret,
                    expiresAt := data.expiresAt })

/-- The `/api/realtime/call` handler of `server/server.js` (the
`requireApiKey` middleware has already admitted the request): logs the
retrieval-enrichment outcome and the session configuration, calls the
collaborator, and on success logs only `'Session created successfully'`
and `'Session ID: ...'` — the credential goes only into the response. -/
def realtimeCall (retrieval : RetrievedContext) (cfgModel cfgVoice : Option String)
    (collab : Except (Nat × String) RealtimeSessionData) :
    List String × Except (Nat × String) CallResponse :=
  match collab with
  | Except.error (status, errorText) =>
    ((if retrieval.hasContext then
        ["✓ Injected context from " ++ toString retrieval.sources.length ++ " material(s)"]
      else ["ℹ No materials available, using base instructions"]) ++
      ["Creating Realtime session with OpenAI...",
        "Model: " ++ cfgModel.getD "gpt-4o-mini-realtime-preview-2024-12-17",
        "Voice: " ++ cfgVoice.getD "alloy",
        "OpenAI API Error: " ++ toString status ++ " " ++ errorText],
      Except.error (status, "Failed to create Realtime session"))
  | Except.ok data =>
    ((if retrieval.hasContext then
        ["✓ Injected context from " ++ toString retrieval.sources.length ++ " material(s)"]
      else ["ℹ No materials available, using base instructions"]) ++
      ["Creating Realtime session with OpenAI...",
        "Model: " ++ cfgModel.getD "gpt-4o-mini-realtime-preview-2024-12-17",
        "Voice: " ++ cfgVoice.getD "alloy",
        "Session created successfully",
        "Session ID: " ++ data.id],
      Except.ok { sessionId := data.id, clientSecret := data.clientSecret,
                  expiresAt := data.expiresAt })

/-! ## WebRTC client push-to-talk and transcript handling

The client keeps its session state in a single mutable `state` object
(`isConnected`, `isTalking`, `currentPart`, `turnCount`,
`conversationHistory`) plus a few DOM-reflected flags that the
push-to-talk functions mutate (talk-button class and label, remote
audio muted, microphone track enabled).  The model carries these in
one record; outbound Realtime events sent over the data channel are
returned explicitly.  Purely presentational DOM updates (feedback and
sample-answer panels, part badge, live transcript pane) have no
further behavioural effect and are not carried. -/

/-- Events the client sends over the `oai-events` data channel. -/
inductive OutEvent
  | responseCancel
  | inputAudioBufferCommit
  | responseCreate
deriving DecidableEq, Repr

/-- The client `state` object plus the DOM-reflected flags mutated by
the push-to-talk functions. -/
structure ClientState where
  isConnected : Bool
  isTalking : Bool
  dataChannelOpen : Bool
  hasLocalStream : Bool
  micEnabled : Bool
  remoteAudioMuted : Bool
  talkButtonTalking : Bool
  talkButtonText : String
  currentQuestion : String
  currentAssistantTranscript : String
  currentPart : Nat
  turnCount : Nat
  conversationHistory : List (String × String)
deriving DecidableEq, Repr

/-- `sendEvent(event)`: delivered only when the data channel is open
(otherwise only a warning is printed). -/
def sendEvent (s : ClientState) (e : OutEvent) : List OutEvent :=
  if s.dataChannelOpen then [e] else []

/-- `startTalking()`: rejected when not connected or already talking;
otherwise sets the talking flags, sends `response.cancel` (barge-in),
mutes remote playback, enables the microphone track, and sends
`input_audio_buffer.commit`. -/
def startTalking (s : ClientState) : ClientState × List OutEvent :=
  if !s.isConnected || s.isTalking then (s, [])
  else
    ({ s with isTalking := true, talkButtonTalking := true,
              talkButtonText := "Speaking...",
              remoteAudioMuted := true,
              micEnabled := if s.hasLocalStream then true else s.micEnabled },
      sendEvent s OutEvent.responseCancel ++ sendEvent s OutEvent.inputAudioBufferCommit)

/-- `stopTalking()`: rejected when not connected or not talking;
otherwise clears the talking flags, unmutes remote playback (the
microphone-track disable is commented out in the source) and sends
`response.create`. -/
def stopTalking (s : ClientState) : ClientState × List OutEvent :=
  if !s.isConnected || !s.isTalking then (s, [])
  else
    ({ s with isTalking := false, talkButtonTalking := false,
              talkButtonText := "Hold to Talk",
              remoteAudioMuted := false },
      sendEvent s OutEvent.responseCreate)

/-- `addLogEntry(role, content)`: appends a conversation-log entry (the
DOM log and `state.conversationHistory` mirror each other; timestamps
are display-only). -/
def addLogEntry (s : ClientState) (role content : String) : ClientState :=
  { s with conversationHistory := s.conversationHistory ++ [(role, content)] }

/-- `text.toLowerCase()` (ASCII lowering of the characters). -/
def lowerStr (s : String) : String :=
  String.mk (s.toList.map Char.toLower)

/-- `hay.includes(needle)`. -/
def containsSub (needle hay : String) : Bool :=
  decide (List.IsInfix needle.toList hay.toList)

/-- The part of `parseFeedback(text)` that touches `state`: keyword
routing of `state.currentPart` (`'part 2'`/`'task card'` → 2,
`'part 3'` → 3); the feedback and sample-answer panel updates are
DOM-only. -/
def parseFeedback (s : ClientState) (text : String) : ClientState :=
  if containsSub "part 2" (lowerStr text) || containsSub "task card" (lowerStr text) then
    { s with currentPart := 2 }
  else if containsSub "part 3" (lowerStr text) then
    { s with currentPart := 3 }
  else s

/-- `handleAssistantTranscriptDelta(delta)`: accumulate the fragment. -/
def handleAssistantTranscriptDelta (s : ClientState) (delta : String) : ClientState :=
  { s with currentAssistantTranscript := s.currentAssistantTranscript ++ delta }

/-- `handleAssistantTranscriptDone(transcript)`: unconditionally clears
the accumulation buffer, sets the current question, appends an
`examiner` conversation-log entry and runs the feedback keyword
routing — there is no staleness or state check. -/
def handleAssistantTranscriptDone (s : ClientState) (transcript : String) : ClientState :=
  parseFeedback
    (addLogEntry
      { s with currentAssistantTranscript := "", currentQuestion := transcript }
      "examiner" transcript)
    transcript

/-- `handleUserTranscript(transcript)`: log the user's words (the live
transcript pane is DOM-only). -/
def handleUserTranscript (s : ClientState) (transcript : String) : ClientState :=
  addLogEntry s "user" transcript

/-- The client state right after `startInterview()` succeeds and the
data channel opens: connected, not talking, microphone live, remote
audio unmuted, in Part 1.  (The informational `system` log entries
accumulated while connecting are immaterial to later behaviour and
start empty here.) -/
def connectedInit : ClientState :=
  { isConnected := true, isTalking := false, dataChannelOpen := true,
    hasLocalStream := true, micEnabled := true, remoteAudioMuted := false,
    talkButtonTalking := false, talkButtonText := "Hold to Talk",
    currentQuestion := "Waiting for examiner to start...",
    currentAssistantTranscript := "", currentPart := 1, turnCount := 0,
    conversationHistory := [] }

/-- The configuration the spec calls `AwaitingAgentResponse`, reached
by the code path: connect, press talk, release talk (the release sent
`response.create`, so an agent response is now pending). -/
def awaitingAgentState : ClientState :=
  (stopTalking (startTalking connectedInit).1).1

/-- A barge-in scenario: the agent is mid-turn (a transcript fragment
has arrived) and the user presses talk, which emits the cancellation. -/
def bargedState : ClientState :=
  (startTalking
    (handleAssistantTranscriptDelta connectedInit "Tell me about your hometown.")).1

/-! ### Chunker lemmas -/

lemma lastIdx_lt_length {c : Char} :
    ∀ {l : List Char} {j : Nat}, lastIdx c l = some j → j < l.length := by
  intro l
  induction l with
  | nil => intro j h; simp [lastIdx] at h
  | cons x xs ih =>
    intro j h
    simp only [lastIdx] at h
    cases hx : lastIdx c xs with
    | some k =>
      rw [hx] at h
      have := ih hx
      simp only [Option.some.injEq] at h
      simpa [← h] using Nat.succ_lt_succ this
    | none =>
      rw [hx] at h
      by_cases hc : x = c
      · simp [hc] at h
        simp [← h]
      · simp [hc] at h

lemma lastIndexOfC_lt_length (l : List Char) (c : Char) :
    lastIndexOfC l c < (l.length : Int) := by
  cases h : lastIdx c l with
  | some j =>
    have := lastIdx_lt_length h
    simp only [lastIndexOfC, h]
    exact_mod_cast this
  | none =>
    simp only [lastIndexOfC, h]
    omega

lemma mem_dropWhile_of_neg {p : Char → Bool} {c : Char} (hc : p c = false) :
    ∀ {l : List Char}, c ∈ l → c ∈ l.dropWhile p := by
  intro l
  induction l with
  | nil => intro h; exact absurd h (List.not_mem_nil c)
  | cons x xs ih =>
    intro h
    by_cases hx : p x
    · rw [List.dropWhile_cons_of_pos hx]
      rcases List.mem_cons.mp h with h | h
      · subst h; rw [hc] at hx; exact absurd hx (by simp)
      · exact ih h
    · rwa [List.dropWhile_cons_of_neg hx]

lemma mem_trimC {c : Char} (hc : isWs c = false) {l : List Char} (h : c ∈ l) :
    c ∈ trimC l := by
  unfold trimC
  rw [List.mem_reverse]
  apply mem_dropWhile_of_neg hc
  rw [List.mem_reverse]
  exact mem_dropWhile_of_neg hc h

lemma trimC_length_le (l : List Char) : (trimC l).length ≤ l.length := by
  unfold trimC
  have h1 := List.Sublist.length_le (List.dropWhile_sublist (l := l) isWs)
  have h2 := List.Sublist.length_le
    (List.dropWhile_sublist (l := (l.dropWhile isWs).reverse) isWs)
  simp only [List.length_reverse] at *
  omega

/-- A character of `t` at a position inside the window `[s, s+k)` is a
member of the corresponding slice `(t.drop s).take k`. -/
lemma mem_slice {t : List Char} {s k i : Nat} (h1 : s ≤ i) (h2 : i < s + k)
    (h3 : i < t.length) : t.get ⟨i, h3⟩ ∈ (t.drop s).take k := by
  have h4 : i - s < ((t.drop s).take k).length := by
    simp only [List.length_take, List.length_drop]
    omega
  have h5 := List.getElem_mem h4
  have h6 : ((t.drop s).take k)[i - s] = t[i] := by
    rw [List.getElem_take, List.getElem_drop]
    congr 1
    omega
  rw [h6] at h5
  simpa [List.get_eq_getElem] using h5

lemma ceilDiv_pos {r A : Nat} (hA : 0 < A) (hr : 0 < r) : 1 ≤ ceilDiv r A := by
  unfold ceilDiv
  rw [Nat.le_div_iff_mul_le hA]
  omega

lemma ceilDiv_zero {A : Nat} (hA : 0 < A) : ceilDiv 0 A = 0 := by
  unfold ceilDiv
  exact Nat.div_eq_of_lt (by omega)

lemma ceilDiv_step {r rp A : Nat} (hA : 0 < A) (hr : 0 < r) (h : rp ≤ r - A) :
    ceilDiv rp A + 1 ≤ ceilDiv r A := by
  by_cases hAr : A ≤ r
  · unfold ceilDiv
    rw [← Nat.add_div_right (rp + A - 1) hA]
    apply Nat.div_le_div_right
    omega
  · have hrp : rp = 0 := by omega
    subst hrp
    rw [ceilDiv_zero hA]
    exact ceilDiv_pos hA hr

/-- Per-iteration facts about the `chunkText` loop body: the start
pointer strictly advances; it advances by at least `minAdvance` unless
the iteration is the final one; the pushed chunk is no longer than
`chunkSize`; and the pushed chunk contains every character of the text
between the old and the new start pointer. -/
lemma chunkStep_spec (t : List Char) (cs ov start : Nat) (hov : ov < cs)
    (hs : start < t.length) :
    start < (chunkStep t cs ov start).1 ∧
    ((chunkStep t cs ov start).1 = t.length ∨
      start + minAdvance cs ov ≤ (chunkStep t cs ov start).1) ∧
    (chunkStep t cs ov start).2.length ≤ cs ∧
    (∀ i (hi : i < t.length), start ≤ i → i < (chunkStep t cs ov start).1 →
      t.get ⟨i, hi⟩ ∈ (chunkStep t cs ov start).2) := by
  have hEndLe : windowEnd t cs start ≤ t.length := min_le_right _ _
  have hEndCs : windowEnd t cs start ≤ start + cs := min_le_left _ _
  have hEndGt : start ≤ windowEnd t cs start := by
    unfold windowEnd
    omega
  have hlen0 : (window t cs start).length = windowEnd t cs start - start := by
    unfold window
    rw [List.length_take, List.length_drop]
    omega
  unfold chunkStep
  by_cases hInt : windowEnd t cs start < t.length
  · have hEndEq : windowEnd t cs start = start + cs := by
      unfold windowEnd at *
      omega
    rw [if_pos hInt]
    by_cases hbp : 2 * breakPointOf (window t cs start) > (cs : Int)
    · rw [if_pos hbp]
      dsimp only
      have hbp0 : (0 : Int) ≤ breakPointOf (window t cs start) := by omega
      have hbplt : breakPointOf (window t cs start) < ((window t cs start).length : Int) :=
        max_lt (lastIndexOfC_lt_length _ _) (lastIndexOfC_lt_length _ _)
      have h1 : (breakPointOf (window t cs start)).toNat < (window t cs start).length := by
        omega
      have h2 : cs < 2 * (breakPointOf (window t cs start)).toNat := by omega
      refine ⟨by omega, Or.inr ?_, ?_, ?_⟩
      · unfold minAdvance
        omega
      · have := List.length_take_le ((breakPointOf (window t cs start)).toNat + 1)
          (window t cs start)
        omega
      · intro i hi hle hlt
        set b := (breakPointOf (window t cs start)).toNat with hb
        have hk : (window t cs start).take (b + 1) = (t.drop start).take (b + 1) := by
          rw [window, List.take_take]
          congr 1
          omega
        rw [hk]
        exact mem_slice hle (by omega) hi
    · rw [if_neg hbp]
      dsimp only
      refine ⟨by omega, Or.inr ?_, by omega, ?_⟩
      · unfold minAdvance
        omega
      · intro i hi hle hlt
        rw [window]
        exact mem_slice hle (by omega) hi
  · have hEndEq : windowEnd t cs start = t.length := by omega
    rw [if_neg hInt]
    dsimp only
    refine ⟨by omega, Or.inl rfl, by omega, ?_⟩
    intro i hi hle hlt
    rw [window]
    exact mem_slice hle (by omega) hi

/-- Invariant of the `chunkText` loop: with enough fuel (and the
precondition `overlap < chunkSize`) the loop terminates, its iteration
count is bounded by `ceil(remaining / minAdvance)`, every produced
chunk is at most `chunkSize` long, and every non-whitespace character
at or after the start pointer occurs in some produced chunk. -/
lemma chunkLoop_spec (t : List Char) (cs ov : Nat) (hov : ov < cs) :
    ∀ fuel start, t.length - start < fuel →
      ∃ chunks iters, chunkLoop t cs ov fuel start = some (chunks, iters) ∧
        iters ≤ ceilDiv (t.length - start) (minAdvance cs ov) ∧
        (∀ c ∈ chunks, c.length ≤ cs) ∧
        (∀ i (hi : i < t.length), start ≤ i → isWs (t.get ⟨i, hi⟩) = false →
          ∃ c ∈ chunks, t.get ⟨i, hi⟩ ∈ c) := by
  have hA : 0 < minAdvance cs ov := by
    unfold minAdvance
    omega
  intro fuel
  induction fuel with
  | zero => intro start h; omega
  | succ fuel ih =>
    intro start hfuel
    by_cases hs : start < t.length
    · obtain ⟨h1, h2, h3, h4⟩ := chunkStep_spec t cs ov start hov hs
      set ns := (chunkStep t cs ov start).1 with hns
      have hfuel2 : t.length - ns < fuel := by omega
      obtain ⟨rest, iters, hrec, hbound, hlen, hcov⟩ := ih ns hfuel2
      refine ⟨if (trimC (chunkStep t cs ov start).2).length > 0 then
          trimC (chunkStep t cs ov start).2 :: rest else rest,
        iters + 1, ?_, ?_, ?_, ?_⟩
      · simp only [chunkLoop, if_pos hs, ← hns, hrec]
      · rcases h2 with h2 | h2
        · have hz : t.length - ns = 0 := by omega
          rw [hz, ceilDiv_zero hA] at hbound
          have : iters = 0 := by omega
          subst this
          exact ceilDiv_pos hA (by omega)
        · have : iters + 1 ≤ ceilDiv (t.length - ns) (minAdvance cs ov) + 1 := by omega
          refine le_trans this (ceilDiv_step hA (by omega) (by omega))
      · intro c hc
        by_cases hp : (trimC (chunkStep t cs ov start).2).length > 0
        · rw [if_pos hp] at hc
          rcases List.mem_cons.mp hc with hc | hc
          · subst hc
            exact le_trans (trimC_length_le _) h3
          · exact hlen c hc
        · rw [if_neg hp] at hc
          exact hlen c hc
      · intro i hi hle hws
        by_cases hin : i < ns
        · have hmem0 := h4 i hi hle hin
          have hmem : t.get ⟨i, hi⟩ ∈ trimC (chunkStep t cs ov start).2 :=
            mem_trimC hws hmem0
          have hpos : 0 < (trimC (chunkStep t cs ov start).2).length :=
            List.length_pos.mpr (List.ne_nil_of_mem hmem)
          refine ⟨trimC (chunkStep t cs ov start).2, ?_, hmem⟩
          rw [if_pos hpos]
          exact List.mem_cons_self _ _
        · obtain ⟨c, hc, hm⟩ := hcov i hi (by omega) hws
          refine ⟨c, ?_, hm⟩
          by_cases hp : (trimC (chunkStep t cs ov start).2).length > 0
          · rw [if_pos hp]
            exact List.mem_cons_of_mem _ hc
          · rwa [if_neg hp]
    · refine ⟨[], 0, ?_, by omega, ?_, ?_⟩
      · simp [chunkLoop, hs]
      · intro c hc
        exact absurd hc (List.not_mem_nil c)
      · intro i hi hle _
        omega

/-! ### Chunker claim theorems -/

/-- C4 (amended): for every input text and every `targetSize > overlap ≥ 0`,
`chunkText` terminates, and the number of loop iterations is at most
`ceil(len(normalizedText) / minAdvance)` where
`minAdvance = min (targetSize - overlap) (⌊targetSize/2⌋ + 2)`: the start
pointer advances by at least `targetSize - overlap` in the plain-advance
branch but only by `breakPoint + 1 ≥ ⌊targetSize/2⌋ + 2` in the
sentence-boundary branch, so `minAdvance` — not `targetSize - overlap` —
is the guaranteed minimum advance per iteration. -/
theorem chunkText_terminates_iterBound (text : List Char) (cs ov : Nat)
    (hov : ov < cs) :
    ∃ chunks iters, chunkRun text cs ov = some (chunks, iters) ∧
      iters ≤ ceilDiv (normalizeText text).length (minAdvance cs ov) := by
  obtain ⟨chunks, iters, h1, h2, _, _⟩ :=
    chunkLoop_spec (normalizeText text) cs ov hov
      ((normalizeText text).length + 1) 0 (by omega)
  exact ⟨chunks, iters, h1, by simpa using h2⟩

/-- Witness for C4's amended bound at a concrete input. -/
theorem chunkText_terminates_iterBound_witness :
    (0 : Nat) < 10 ∧
    ∃ chunks iters,
      chunkRun (String.toList "abcdef.ghijkl.mnopqr.stuvwxyza") 10 0
        = some (chunks, iters) ∧
      iters ≤ ceilDiv
        (normalizeText (String.toList "abcdef.ghijkl.mnopqr.stuvwxyza")).length
        (minAdvance 10 0) :=
  ⟨by decide,
    chunkText_terminates_iterBound (String.toList "abcdef.ghijkl.mnopqr.stuvwxyza")
      10 0 (by decide)⟩

/-- C4 counterexample: with `targetSize = 10`, `overlap = 0` and the
30-character input `"abcdef.ghijkl.mnopqr.stuvwxyza"` (periods at
indices 6, 13 and 20, so every interior window cuts at a sentence
boundary just past half the window), the loop runs 4 iterations, but
the claimed bound `ceil(len / (targetSize - overlap))` is 3. -/
theorem chunkText_iterBound_counterexample :
    chunkIters (String.toList "abcdef.ghijkl.mnopqr.stuvwxyza") 10 0 = some 4 ∧
    ceilDiv (normalizeText (String.toList "abcdef.ghijkl.mnopqr.stuvwxyza")).length
      (10 - 0) = 3 ∧
    ¬ (4 ≤ 3) :=
  ⟨by decide, by decide, by decide⟩

/-- C5 (amended): for every input text and every `targetSize > overlap ≥ 0`,
every chunk produced by `chunkText` has length at most `targetSize`
(the sentence-boundary cut stays inside the window, so there is no
overshoot), and every NON-WHITESPACE character of the normalized input
appears in at least one produced chunk.  (Whitespace characters at
chunk boundaries can be dropped by the per-chunk `trim()`, so coverage
of every character — as originally claimed — fails; see the
counterexample.) -/
theorem chunkText_lengthBound_coverage (text : List Char) (cs ov : Nat)
    (hov : ov < cs) :
    ∃ chunks, chunkText text cs ov = some chunks ∧
      (∀ c ∈ chunks, c.length ≤ cs) ∧
      (∀ i (hi : i < (normalizeText text).length),
        isWs ((normalizeText text).get ⟨i, hi⟩) = false →
        ∃ c ∈ chunks, (normalizeText text).get ⟨i, hi⟩ ∈ c) := by
  obtain ⟨chunks, iters, h1, _, h3, h4⟩ :=
    chunkLoop_spec (normalizeText text) cs ov hov
      ((normalizeText text).length + 1) 0 (by omega)
  refine ⟨chunks, ?_, h3, fun i hi hw => h4 i hi (Nat.zero_le i) hw⟩
  have h5 : chunkRun text cs ov = some (chunks, iters) := h1
  unfold chunkText
  rw [h5]
  rfl

/-- Witness for C5's amended statement at a concrete input. -/
theorem chunkText_lengthBound_coverage_witness :
    (0 : Nat) < 10 ∧
    ∃ chunks, chunkText (String.toList "abcdef. bcdefgh") 10 0 = some chunks ∧
      (∀ c ∈ chunks, c.length ≤ 10) ∧
      (∀ i (hi : i < (normalizeText (String.toList "abcdef. bcdefgh")).length),
        isWs ((normalizeText (String.toList "abcdef. bcdefgh")).get ⟨i, hi⟩) = false →
        ∃ c ∈ chunks, (normalizeText (String.toList "abcdef. bcdefgh")).get ⟨i, hi⟩ ∈ c) :=
  ⟨by decide,
    chunkText_lengthBound_coverage (String.toList "abcdef. bcdefgh") 10 0 (by decide)⟩

/-- C5 counterexample: with `targetSize = 10`, `overlap = 0` and input
`"abcdef. bcdefgh"`, the sentence-boundary cut ends the first chunk at
the period (index 6) and the second chunk starts at index 7, whose
character is the space `' '`; `trim()` drops it, so the space — a
character of the normalized input — appears in no produced chunk. -/
theorem chunkText_coverage_counterexample :
    chunkText (String.toList "abcdef. bcdefgh") 10 0 =
      some [String.toList "abcdef.", String.toList "bcdefgh"] ∧
    ' ' ∈ normalizeText (String.toList "abcdef. bcdefgh") ∧
    ' ' ∉ String.toList "abcdef." ∧
    ' ' ∉ String.toList "bcdefgh" :=
  ⟨by decide, by decide, by decide, by decide⟩

/-! ### Embedder claim theorems -/

lemma embedBatchesE_eq_map (f : List String → Except String (List (List ℚ)))
    (g : String → List ℚ) (hf : ∀ b, f b = Except.ok (b.map g)) :
    ∀ l : List String, embedBatchesE f l = Except.ok (l.map g) := by
  have H : ∀ n (l : List String), l.length ≤ n →
      embedBatchesE f l = Except.ok (l.map g) := by
    intro n
    induction n with
    | zero =>
      intro l hl
      have hnil : l = [] := List.eq_nil_of_length_eq_zero (by omega)
      subst hnil
      simp [embedBatchesE]
    | succ n ih =>
      intro l hl
      match l with
      | [] => simp [embedBatchesE]
      | c :: cs =>
        have hdrop : ((c :: cs).drop 20).length ≤ n := by
          simp only [List.length_drop, List.length_cons]
          simp only [List.length_cons] at hl
          omega
        rw [embedBatchesE, hf ((c :: cs).take 20), ih ((c :: cs).drop 20) hdrop]
        show Except.ok (List.map g ((c :: cs).take 20) ++ List.map g ((c :: cs).drop 20))
          = Except.ok (List.map g (c :: cs))
        rw [← List.map_append, List.take_append_drop]
  intro l
  exact H l.length l (Nat.le_refl _)

/-- C6: for every finite sequence of input texts, `generateEmbeddings`
returns exactly one vector per input text, the vector at position `i`
corresponding to the input at position `i`, across the fixed batch
size of 20 — assuming the embedding collaborator returns one vector
per input in request order for each batch (modelled as
`f b = ok (b.map g)` for a per-text embedding function `g`). -/
theorem generateEmbeddings_order_preserving :
    ∀ (k : String) (f : List String → Except String (List (List ℚ)))
      (g : String → List ℚ) (chunks : List String),
      (∀ b, f b = Except.ok (b.map g)) →
      generateEmbeddings (some k) f chunks = Except.ok (chunks.map g) ∧
      (chunks.map g).length = chunks.length ∧
      (∀ i (hi : i < chunks.length) (ho : i < (chunks.map g).length),
        (chunks.map g).get ⟨i, ho⟩ = g (chunks.get ⟨i, hi⟩)) := by
  intro k f g chunks hf
  refine ⟨?_, List.length_map chunks g, ?_⟩
  · unfold generateEmbeddings
    rw [embedBatchesE_eq_map f g hf chunks]
  · intro i hi ho
    simp [List.get_eq_getElem, List.getElem_map]

/-- Witness for C6 at a concrete input list spanning a batch. -/
theorem generateEmbeddings_order_preserving_witness :
    generateEmbeddings (some "sk-test")
      (fun b => Except.ok (b.map (fun s => [(s.length : ℚ)]))) ["a", "bb", "ccc"]
      = Except.ok (["a", "bb", "ccc"].map (fun s => [(s.length : ℚ)])) :=
  (generateEmbeddings_order_preserving "sk-test"
    (fun b => Except.ok (b.map (fun s => [(s.length : ℚ)])))
    (fun s => [(s.length : ℚ)]) ["a", "bb", "ccc"] (fun _ => rfl)).1

/-! ### Retriever claim theorems -/

/-- C3: `retrieveContext` never raises to its caller — for every API
key, embedding outcome, index-query outcome and `topK`, an absent API
key makes the embedding step fail with the fixed message, and any
failure of the embedding step or of the index query yields the
degraded `{hasContext := false, context := "", sources := [],
error := some message}` object instead of propagating the failure. -/
theorem retrieveContext_fails_open :
    ∀ (apiKey : Option String) (embedOutcome : Except String (List ℚ))
      (search : List ℚ → Nat → Except String (List SearchHit))
      (topK : Nat) (e : String),
      (apiKey = none →
        generateQueryEmbedding apiKey embedOutcome
          = Except.error "API Key required for generating embeddings") ∧
      (generateQueryEmbedding apiKey embedOutcome = Except.error e →
        retrieveContext apiKey embedOutcome search topK
          = { hasContext := false, context := "", sources := [],
              results := none, error := some e }) ∧
      (∀ emb, generateQueryEmbedding apiKey embedOutcome = Except.ok emb →
        search emb topK = Except.error e →
        retrieveContext apiKey embedOutcome search topK
          = { hasContext := false, context := "", sources := [],
              results := none, error := some e }) := by
  intro apiKey embedOutcome search topK e
  refine ⟨?_, ?_, ?_⟩
  · intro h
    subst h
    rfl
  · intro h
    simp only [retrieveContext, h]
  · intro emb h1 h2
    simp only [retrieveContext, h1, h2]

/-- Witness for C3: an absent API key degrades to "no context". -/
theorem retrieveContext_fails_open_witness :
    retrieveContext none (Except.ok [(1 : ℚ)]) (fun _ _ => Except.ok []) 3
      = { hasContext := false, context := "", sources := [],
          results := none,
          error := some "API Key required for generating embeddings" } :=
  (retrieveContext_fails_open none (Except.ok [(1 : ℚ)]) (fun _ _ => Except.ok []) 3
    "API Key required for generating embeddings").2.1 rfl

/-- C9: when the index search returns zero results, `retrieveContext`
returns exactly `{hasContext := false, context := "", sources := []}`
with the `results` field absent (`none`, i.e. the key is not set, so
`res.json` omits it) and no `error` field, and the `/api/search`
handler forwards that absent `results` field to its HTTP caller. -/
theorem retrieveContext_empty_results_absent :
    ∀ (apiKey : Option String) (embedOutcome : Except String (List ℚ))
      (search : List ℚ → Nat → Except String (List SearchHit))
      (q : String) (topK : Nat) (emb : List ℚ),
      q ≠ "" →
      generateQueryEmbedding apiKey embedOutcome = Except.ok emb →
      search emb topK = Except.ok [] →
      retrieveContext apiKey embedOutcome search topK
        = { hasContext := false, context := "", sources := [],
            results := none, error := none } ∧
      searchHandler q topK apiKey embedOutcome search
        = Except.ok { success := true, query := q, hasContext := false,
                      sources := [], results := none } := by
  intro apiKey embedOutcome search q topK emb hq h1 h2
  have hr : retrieveContext apiKey embedOutcome search topK
      = { hasContext := false, context := "", sources := [],
          results := none, error := none } := by
    simp only [retrieveContext, h1, h2, List.length_nil, if_pos]
  refine ⟨hr, ?_⟩
  unfold searchHandler
  rw [if_neg hq, hr]

/-- Witness for C9 at a concrete query over an empty index. -/
theorem retrieveContext_empty_results_absent_witness :
    retrieveContext (some "sk-test") (Except.ok [(1 : ℚ)])
        (fun _ _ => Except.ok []) 3
      = { hasContext := false, context := "", sources := [],
          results := none, error := none } ∧
    searchHandler "hello" 3 (some "sk-test") (Except.ok [(1 : ℚ)])
        (fun _ _ => Except.ok [])
      = Except.ok { success := true, query := "hello", hasContext := false,
                    sources := [], results := none } :=
  retrieveContext_empty_results_absent (some "sk-test") (Except.ok [(1 : ℚ)])
    (fun _ _ => Except.ok []) "hello" 3 [(1 : ℚ)] (by decide) rfl rfl

/-! ### Vector index claim theorems -/

lemma length_filter_split {α : Type} (p : α → Bool) (l : List α) :
    (l.filter p).length + (l.filter (fun x => !p x)).length = l.length := by
  induction l with
  | nil => rfl
  | cons x xs ih =>
    by_cases hx : p x <;>
      simp only [List.filter_cons, hx, Bool.not_true, Bool.not_false, if_pos, if_neg,
        Bool.false_eq_true, not_false_eq_true, List.length_cons, ite_true, ite_false] <;>
      omega

lemma listDocuments_mem_source :
    ∀ (coll : List ChunkRecord) (acc : List DocSummary) (d : DocSummary),
      d ∈ coll.foldl (fun acc r =>
        if acc.any (fun x => x.documentId = r.metadata.documentId) then acc
        else acc ++ [{ documentId := r.metadata.documentId,
                       fileName := r.metadata.fileName,
                       uploadedAt := r.metadata.uploadedAt,
                       totalChunks := r.metadata.totalChunks }]) acc →
      d ∈ acc ∨ ∃ r ∈ coll, r.metadata.documentId = d.documentId := by
  intro coll
  induction coll with
  | nil =>
    intro acc d h
    exact Or.inl h
  | cons r rs ih =>
    intro acc d h
    simp only [List.foldl_cons] at h
    rcases ih _ d h with h2 | h2
    · by_cases hc : acc.any (fun x => x.documentId = r.metadata.documentId)
      · rw [if_pos hc] at h2
        exact Or.inl h2
      · rw [if_neg hc] at h2
        rcases List.mem_append.mp h2 with h3 | h3
        · exact Or.inl h3
        · have h4 : d = (⟨r.metadata.documentId, r.metadata.fileName,
              r.metadata.uploadedAt, r.metadata.totalChunks⟩ : DocSummary) := by
            simpa using h3
          subst h4
          exact Or.inr ⟨r, List.mem_cons_self r rs, rfl⟩
    · obtain ⟨r2, hr2, he⟩ := h2
      exact Or.inr ⟨r2, List.mem_cons_of_mem r hr2, he⟩

/-- C8: `deleteDocument` removes exactly the chunks whose stored
`documentId` matches (given Chroma's invariant that ids in a collection
are unique), is a no-op when the document has no chunks, and afterwards
`listDocuments()` no longer includes the documentId while
`stats().totalChunks` decreases by exactly the document's prior chunk
count. -/
theorem deleteDocument_complete :
    ∀ (coll : List ChunkRecord) (documentId : String),
      (coll.map (fun r => r.id)).Nodup →
      deleteDocument coll documentId
        = coll.filter (fun r => !(r.metadata.documentId = documentId : Bool)) ∧
      (collGetByDocumentId coll documentId = [] →
        deleteDocument coll documentId = coll) ∧
      (∀ d ∈ listDocuments (deleteDocument coll documentId),
        d.documentId ≠ documentId) ∧
      (getStats (deleteDocument coll documentId)).totalChunks
        = (getStats coll).totalChunks - (collGetByDocumentId coll documentId).length := by
  intro coll documentId hnodup
  have hfilter : deleteDocument coll documentId
      = coll.filter (fun r => !(r.metadata.documentId = documentId : Bool)) := by
    unfold deleteDocument
    by_cases hne : (collGetByDocumentId coll documentId).length > 0
    · rw [if_pos hne]
      unfold collDeleteByIds
      apply List.filter_congr
      intro r hr
      have hiff : r.id ∈ (collGetByDocumentId coll documentId).map (fun x => x.id)
          ↔ r.metadata.documentId = documentId := by
        constructor
        · intro hmem
          obtain ⟨r2, hr2, hid⟩ := List.mem_map.mp hmem
          have hr2c : r2 ∈ coll := List.mem_of_mem_filter hr2
          have hr2d : r2.metadata.documentId = documentId := by
            have := List.of_mem_filter hr2
            simpa using this
          have heq : r2 = r := List.inj_on_of_nodup_map hnodup hr2c hr hid
          rw [← heq]
          exact hr2d
        · intro hd
          exact List.mem_map.mpr
            ⟨r, List.mem_filter.mpr ⟨hr, by simpa using hd⟩, rfl⟩
      show (decide (r.id ∉ (collGetByDocumentId coll documentId).map (fun x => x.id)) : Bool)
          = !(decide (r.metadata.documentId = documentId))
      rw [decide_not, decide_eq_decide.mpr hiff]
    · rw [if_neg hne]
      have hempty : collGetByDocumentId coll documentId = [] := by
        have : (collGetByDocumentId coll documentId).length = 0 := by omega
        exact List.eq_nil_of_length_eq_zero this
      unfold collGetByDocumentId at hempty
      symm
      apply List.filter_eq_self.mpr
      intro r hr
      have : ¬ (r.metadata.documentId = documentId : Bool) = true := by
        intro hcontr
        have : r ∈ coll.filter (fun x => (x.metadata.documentId = documentId : Bool)) :=
          List.mem_filter.mpr ⟨hr, hcontr⟩
        rw [hempty] at this
        exact absurd this (List.not_mem_nil r)
      simpa using this
  refine ⟨hfilter, ?_, ?_, ?_⟩
  · intro hempty
    unfold deleteDocument
    rw [hempty]
    simp
  · intro d hd
    rw [hfilter] at hd
    rcases listDocuments_mem_source _ [] d hd with h | ⟨r, hr, he⟩
    · exact absurd h (List.not_mem_nil d)
    · have := List.of_mem_filter hr
      simp only [Bool.not_eq_true', decide_eq_false_iff_not] at this
      rw [← he]
      exact this
  · rw [hfilter]
    unfold getStats collCount collGetByDocumentId
    have hsplit := length_filter_split
      (fun r : ChunkRecord => (r.metadata.documentId = documentId : Bool)) coll
    simp only []
    omega

/-- A concrete store built by two `addDocuments` ingestions. -/
def sampleStore : List ChunkRecord :=
  addDocuments
    (addDocuments [] ["alpha.", "beta."] [[(1 : ℚ)], [(2 : ℚ)]] "doc_1"
      (some "notes.pdf") (some "2024-01-01") "2024-01-01")
    ["gamma."] [[(3 : ℚ)]] "doc_2" (some "extra.pdf") (some "2024-01-02") "2024-01-02"

/-- Witness for C8 on a concrete two-document store. -/
theorem deleteDocument_complete_witness :
    (sampleStore.map (fun r => r.id)).Nodup ∧
    deleteDocument sampleStore "doc_1"
      = sampleStore.filter (fun r => !(r.metadata.documentId = "doc_1" : Bool)) ∧
    (∀ d ∈ listDocuments (deleteDocument sampleStore "doc_1"),
      d.documentId ≠ "doc_1") ∧
    (getStats (deleteDocument sampleStore "doc_1")).totalChunks
      = (getStats sampleStore).totalChunks
        - (collGetByDocumentId sampleStore "doc_1").length := by
  have h := deleteDocument_complete sampleStore "doc_1" (by decide)
  exact ⟨by decide, h.1, h.2.2.1, h.2.2.2⟩

/-! ### Session-creation claim theorem -/

/-- C2: the `/api/realtime/call` handler of `server/server.js` never
passes the ephemeral credential to a logging sink — its log output is
invariant under changing the credential, while the credential is
returned in the response.  The alternate stand-alone server's handler,
however, DOES log the credential (`console.log('Client Secret:', ...)`),
shown here at a concrete collaborator response: the claim is violated
by that handler. -/
theorem clientSecret_logging :
    ("Client Secret: ek_test_123" ∈
      (realtimeCallV0 true none none
        (Except.ok { id := "sess_1", clientSecret := "ek_test_123",
                     expiresAt := 1234 })).1) ∧
    ((realtimeCallV0 true none none
        (Except.ok { id := "sess_1", clientSecret := "ek_test_123",
                     expiresAt := 1234 })).2
      = Except.ok { sessionId := "sess_1", clientSecret := "ek_test_123",
                    expiresAt := 1234 }) ∧
    (∀ (retrieval : RetrievedContext) (cfgModel cfgVoice : Option String)
        (data : RealtimeSessionData) (s1 s2 : String),
      (realtimeCall retrieval cfgModel cfgVoice
          (Except.ok { data with clientSecret := s1 })).1
        = (realtimeCall retrieval cfgModel cfgVoice
          (Except.ok { data with clientSecret := s2 })).1) := by
  refine ⟨by decide, rfl, ?_⟩
  intro retrieval cfgModel cfgVoice data s1 s2
  rfl

/-! ### Turn-handling claim theorems -/

/-- C1 (amended): the client does not track an agent-response-pending
state; `startTalking` rejects a start-talking event exactly when the
session is not connected or the user is already talking, so in the
configuration the spec calls `AwaitingAgentResponse` (connected, not
talking, a `response.create` outstanding) the event is ACCEPTED: it
sets the talking flag and sends `response.cancel` followed by
`input_audio_buffer.commit`. -/
theorem startTalking_guard_spec :
    (∀ s : ClientState, (s.isConnected = false ∨ s.isTalking = true) →
      startTalking s = (s, [])) ∧
    (∀ s : ClientState, s.isConnected = true → s.isTalking = false →
      (startTalking s).1.isTalking = true ∧
      (startTalking s).2
        = sendEvent s OutEvent.responseCancel
          ++ sendEvent s OutEvent.inputAudioBufferCommit) := by
  constructor
  · intro s h
    rcases h with h | h <;> simp [startTalking, h]
  · intro s h1 h2
    simp [startTalking, h1, h2]

/-- Witness for C1's amended statement: in the awaiting configuration
the start-talking event is accepted. -/
theorem startTalking_guard_spec_witness :
    awaitingAgentState.isConnected = true ∧
    awaitingAgentState.isTalking = false ∧
    ((startTalking awaitingAgentState).1.isTalking = true ∧
      (startTalking awaitingAgentState).2
        = sendEvent awaitingAgentState OutEvent.responseCancel
          ++ sendEvent awaitingAgentState OutEvent.inputAudioBufferCommit) :=
  ⟨by decide, by decide,
    startTalking_guard_spec.2 awaitingAgentState (by decide) (by decide)⟩

/-- C1 counterexample: `awaitingAgentState` is reachable (connect,
press talk, release talk — the release emitted `response.create`, so an
agent response is pending), yet a start-talking event there is NOT
rejected: the state changes and two outbound events are emitted. -/
theorem startTalking_awaiting_counterexample :
    awaitingAgentState.isConnected = true ∧
    awaitingAgentState.isTalking = false ∧
    (stopTalking (startTalking connectedInit).1).2 = [OutEvent.responseCreate] ∧
    (startTalking awaitingAgentState).2
      = [OutEvent.responseCancel, OutEvent.inputAudioBufferCommit] ∧
    (startTalking awaitingAgentState).1 ≠ awaitingAgentState :=
  ⟨by decide, by decide, by decide, by decide, by decide⟩

/-- C7 (amended): a late-arriving completed agent-speech transcript
after a barge-in is NOT dropped: `handleAssistantTranscriptDone`
processes it unconditionally — it leaves the connection and
push-to-talk state untouched, but it clears the buffer, overwrites the
current question and appends an `examiner` conversation-log entry
regardless of the cancellation. -/
theorem transcriptDone_always_processed :
    ∀ (s : ClientState) (transcript : String),
      (handleAssistantTranscriptDone s transcript).isConnected = s.isConnected ∧
      (handleAssistantTranscriptDone s transcript).isTalking = s.isTalking ∧
      (handleAssistantTranscriptDone s transcript).currentAssistantTranscript = "" ∧
      (handleAssistantTranscriptDone s transcript).currentQuestion = transcript ∧
      (handleAssistantTranscriptDone s transcript).conversationHistory
        = s.conversationHistory ++ [("examiner", transcript)] := by
  intro s t
  unfold handleAssistantTranscriptDone parseFeedback addLogEntry
  split_ifs <;> simp

/-- C7 counterexample: after a barge-in (which emitted the
cancellation), the late `agentTranscriptDone` for the cancelled turn
still produces an examiner conversation-log entry instead of being
dropped. -/
theorem lateTranscriptDone_counterexample :
    (startTalking
        (handleAssistantTranscriptDelta connectedInit
          "Tell me about your hometown.")).2
      = [OutEvent.responseCancel, OutEvent.inputAudioBufferCommit] ∧
    bargedState.conversationHistory = [] ∧
    (handleAssistantTranscriptDone bargedState
        "Tell me about your hometown.").conversationHistory
      = [("examiner", "Tell me about your hometown.")] :=
  ⟨by decide, by decide, by decide⟩

/-- C10: `startTalking` is a no-op (state unchanged, no outbound event,
no audio-track or mute change) when the session is not connected or the
user is already talking, `stopTalking` is a no-op when the user is not
talking, and hence repeated start (or stop) events are idempotent. -/
theorem pushToTalk_noop_idempotent :
    (∀ s : ClientState, (s.isConnected = false ∨ s.isTalking = true) →
      startTalking s = (s, [])) ∧
    (∀ s : ClientState, s.isTalking = false → stopTalking s = (s, [])) ∧
    (∀ s : ClientState,
      startTalking (startTalking s).1 = ((startTalking s).1, [])) ∧
    (∀ s : ClientState,
      stopTalking (stopTalking s).1 = ((stopTalking s).1, [])) := by
  refine ⟨?_, ?_, ?_, ?_⟩
  · intro s h
    rcases h with h | h <;> simp [startTalking, h]
  · intro s h
    simp [stopTalking, h]
  · intro s
    by_cases h1 : s.isConnected
    · by_cases h2 : s.isTalking
      · simp [startTalking, h1, h2]
      · simp [startTalking, h1, h2]
    · simp [startTalking, h1]
  · intro s
    by_cases h1 : s.isConnected
    · by_cases h2 : s.isTalking
      · simp [stopTalking, h1, h2]
      · simp [stopTalking, h1, h2]
    · simp [stopTalking, h1]

/-- Witness for C10 at concrete states. -/
theorem pushToTalk_noop_idempotent_witness :
    startTalking { connectedInit with isConnected := false }
      = ({ connectedInit with isConnected := false }, []) ∧
    stopTalking connectedInit = (connectedInit, []) :=
  ⟨pushToTalk_noop_idempotent.1 { connectedInit with isConnected := false }
      (Or.inl rfl),
    pushToTalk_noop_idempotent.2.1 connectedInit rfl⟩

end IeltsRag
